import Mathlib

/-!
# Component metadata extraction (`extract_mui_advanced.js`)

A shallow embedding of the extraction script: the member extractor
(`extractPropsFromInterface`), the default-value lookup (`extractDefaultValue`),
the per-component driver (`extractComponentData`, with its syntax-tree walk and
its event filter), discovery (`getAllMUIComponents`,
`extractFromPackageExports`) and the run `extractAllComponents`.

The TypeScript compiler API, the Node file system and path modules and
`String.prototype.toLowerCase` are external to the script.  Compiler objects
are modelled by plain data (symbols, declarations, documentation tags, syntax
nodes); the services (`createProgram`, the type checker, `fs`, `path.join`,
`toLowerCase`) are functions that are parameters of the embedding, and each
call that can throw returns an `Except` whose error is the exception's message.
JavaScript mutation of `componentData`, `componentIndex`, `allComponentData`,
the console and the written files is explicit state passing.
-/

set_option autoImplicit false

namespace MuiExtract

/-! ## JavaScript string helpers -/

/-- JavaScript `a || b` on strings: the empty string is the only falsy one. -/
def strOr (a b : String) : String :=
  if a = "" then b else a

/-- JavaScript `Array.prototype.join` on an array of strings. -/
def join (sep : String) : List String → String
  | [] => ""
  | [s] => s
  | s :: t :: rest => s ++ sep ++ join sep (t :: rest)

/-- JavaScript `s.startsWith(p)`. -/
def startsWith (s p : String) : Bool :=
  p.data.isPrefixOf s.data

/-- The test `/^[A-Z]/.test(s)`: the first character is one of `A`..`Z`. -/
def startsUpper (s : String) : Bool :=
  match s.data with
  | c :: _ => c.isUpper
  | [] => false

/-! ## Compiler-API data -/

/-- One element of a tag text given as display parts. -/
structure DisplayPart where
  text : String
  kind : String
deriving DecidableEq, Repr

/-- The `text` of a documentation tag as the compiler hands it over: it is
optional (undefined for a tag without text), a string in older compilers and
an array of display parts in newer ones.  The same type holds what
`extractDefaultValue` returns, which is a tag text or undefined. -/
inductive TagText where
  | undefined
  | string (s : String)
  | displayParts (parts : List DisplayPart)
deriving DecidableEq, Repr

/-- The string `Array.prototype.join` uses for an element that is a tag text:
the empty string for undefined, the string itself, and for an array its own
`join(",")`, in which every display part (an object) reads `[object Object]`. -/
def TagText.toJoinString : TagText → String
  | TagText.undefined => ""
  | TagText.string s => s
  | TagText.displayParts parts => join "," (parts.map (fun _ => "[object Object]"))

/-- Documentation tag of a symbol, as returned by `getJsDocTags()`. -/
structure JsDocTag where
  name : String
  text : TagText
deriving DecidableEq, Repr

/-- Syntax kinds of a member declaration that the script distinguishes:
`ts.isPropertySignature` holds of the first one only. -/
inductive DeclKind where
  | propertySignature
  | methodSignature
  | other
deriving DecidableEq, Repr

/-- Declaration node of a member (`prop.valueDeclaration`): its syntax kind and
whether it carries a `questionToken`. -/
structure Declaration where
  kind : DeclKind
  questionToken : Bool
deriving DecidableEq, Repr

/-- What kind of entity a symbol of a member table stands for (`symbol.flags`):
the table of an interface symbol holds its properties, methods and signatures
and also its type parameters. -/
inductive SymbolFlags where
  | property
  | method
  | signature
  | typeParameter
deriving DecidableEq, Repr

/-- Symbol found in a member table (a value of `symbol.members`): `ident` tells
symbols apart for the checker, `name` is the name as declared in the source
(`symbol.name`), `valueDeclaration` may be undefined.  The script reads
`valueDeclaration` and the documentation tags only. -/
structure MemberSymbol where
  ident : Nat
  name : String
  flags : SymbolFlags
  valueDeclaration : Option Declaration
  jsDocTags : List JsDocTag
deriving DecidableEq, Repr

/-- Interface symbol.  `members` is the symbol table in its iteration order
(the order `Map.prototype.forEach` visits it); its keys are the compiler's
escaped names (a name that starts with two underscores is stored with a third
one in front); it may be undefined. -/
structure Symbol where
  members : Option (List (String × MemberSymbol))
deriving DecidableEq, Repr

/-- Name node of an interface declaration (`node.name`): its `text`, and a
position that identifies the node to the checker. -/
structure Identifier where
  text : String
  pos : Nat
deriving DecidableEq, Repr

/-- Syntax tree as far as `visit` inspects it: a node is an interface
declaration (with its name) or anything else, and has children in the order
`ts.forEachChild` enumerates them. -/
inductive Node where
  | interfaceDeclaration (name : Identifier) (children : List Node)
  | other (children : List Node)

/-- Type checker services the script calls.  Types are identified by a number;
`typeToString` renders one. -/
structure Checker where
  getTypeOfSymbolAtLocation : MemberSymbol → Option Declaration → Nat
  typeToString : Nat → String
  getSymbolAtLocation : Identifier → Option Symbol

/-- Program built by `ts.createProgram`: its checker, its source-file lookup
(`getSourceFile` returns undefined for a file it did not load) and the syntax
errors the parser recorded for a file.  The parser recovers from syntax
errors, so a file with diagnostics still has a tree; the script never reads
the diagnostics. -/
structure Program where
  getTypeChecker : Checker
  getSourceFile : String → Option Node
  getSyntacticDiagnostics : String → List String

/-! ## Output records -/

/-- Record pushed onto `props` by `extractPropsFromInterface`.  The JavaScript
field `default` is `dflt`. -/
structure PropRecord where
  name : String
  type : String
  description : String
  required : Bool
  dflt : TagText
deriving DecidableEq, Repr

/-- Record built by the `.map` of the event filter. -/
structure EventRecord where
  name : String
  type : String
  description : String
deriving DecidableEq, Repr

/-- Element type of `slots`; the script never creates one. -/
structure SlotRecord where
  name : String
deriving DecidableEq, Repr

/-- The `componentData` object. -/
structure ComponentData where
  component_name : String
  import_path : String
  props : List PropRecord
  events : List EventRecord
  slots : List SlotRecord
deriving DecidableEq, Repr

/-! ## Member extractor -/

/-- Function `extractDefaultValue(jsDocs)`: the `text` of the first tag named
`default`, handed on as it is, or undefined when there is no such tag. -/
def extractDefaultValue (jsDocs : List JsDocTag) : TagText :=
  match jsDocs.find? (fun tag => tag.name == "default") with
  | some defaultTag => defaultTag.text
  | none => TagText.undefined

/-- The `description` local of the `forEach` callback:
`jsDocs.filter(..).map(..).join(' ') || ''`. -/
def descriptionOf (jsDocs : List JsDocTag) : String :=
  strOr (join " " (((jsDocs.filter (fun tag => tag.name == "description")).map (fun tag => tag.text)).map
    TagText.toJoinString)) ""

/-- The `isOptional` local of the `forEach` callback:
`prop.valueDeclaration && ts.isPropertySignature(prop.valueDeclaration) &&
prop.valueDeclaration.questionToken`, as a truth value. -/
def isOptional (prop : MemberSymbol) : Bool :=
  match prop.valueDeclaration with
  | none => false
  | some d => d.kind == DeclKind.propertySignature && d.questionToken

/-- Body of the `forEach` callback: the record pushed for one entry of the
member table, `propName` being the entry's key. -/
def memberRecord (checker : Checker) (propName : String) (prop : MemberSymbol) : PropRecord :=
  let propType := checker.getTypeOfSymbolAtLocation prop prop.valueDeclaration
  let propTypeString := checker.typeToString propType
  let jsDocs := prop.jsDocTags
  let description := descriptionOf jsDocs
  { name := propName
    type := propTypeString
    description := strOr description (propName ++ " property")
    required := !isOptional prop
    dflt := extractDefaultValue jsDocs }

/-- Function `extractPropsFromInterface(checker, symbol)`: `props` starts empty
and one record is pushed per entry of `symbol.members`, whatever the entry
stands for; an undefined symbol or member table leaves it empty. -/
def extractPropsFromInterface (checker : Checker) (symbol : Option Symbol) : List PropRecord :=
  match symbol with
  | none => []
  | some sym =>
    match sym.members with
    | none => []
    | some members =>
      members.foldl (fun props entry => props ++ [memberRecord checker entry.1 entry.2]) []

/-! ## Per-component driver -/

mutual
/-- The nested function `visit(node)` of `extractComponentData`, threading
`componentData.props`: a matching interface declaration overwrites the props,
then every child is visited. -/
def visit (checker : Checker) (componentName : String) : Node → List PropRecord → List PropRecord
  | Node.interfaceDeclaration name children, props =>
    let interfaceName := name.text
    let props1 :=
      if interfaceName = componentName ++ "Props" ∨ interfaceName = componentName ++ "PropsWithRef" then
        extractPropsFromInterface checker (checker.getSymbolAtLocation name)
      else props
    visitChildren checker componentName children props1
  | Node.other children, props => visitChildren checker componentName children props
/-- Call `ts.forEachChild(node, visit)`: `visit` returns undefined, so no child is
skipped. -/
def visitChildren (checker : Checker) (componentName : String) : List Node → List PropRecord → List PropRecord
  | [], props => props
  | child :: rest, props =>
    visitChildren checker componentName rest (visit checker componentName child props)
end

/-- The event filter at the end of `extractComponentData`:
`.filter(prop => prop.name.startsWith('on'))` followed by the `.map` to
`{ name, type, description }`.  The two callbacks only read the fields `name`,
`type` and `description` of their argument, so they apply to any array of
objects with these fields; `nameOf`, `typeOf` and `descriptionOf` are the
field reads. -/
def classifyWith {α : Type} (nameOf typeOf descriptionOf : α → String) (props : List α) : List EventRecord :=
  (props.filter (fun prop => startsWith (nameOf prop) "on")).map
    (fun prop => { name := nameOf prop, type := typeOf prop, description := descriptionOf prop })

/-- The event filter on the prop records of `componentData.props`. -/
def classify (props : List PropRecord) : List EventRecord :=
  classifyWith PropRecord.name PropRecord.type PropRecord.description props

/-- The event filter on event records (its own output). -/
def classifyEvents (events : List EventRecord) : List EventRecord :=
  classifyWith EventRecord.name EventRecord.type EventRecord.description events

/-- Ways a call of `extractComponentData` ends: an exception propagates
(with its message), or it returns, after writing `lines` with `console.error`,
a value that is `none` for `null`. -/
inductive Extraction where
  | threw (message : String)
  | returned (lines : List String) (value : Option ComponentData)
deriving DecidableEq, Repr

/-- Function `extractComponentData(componentPath, componentName)`.  `createProgram` is
`ts.createProgram`, which may throw (`Except.error` carries the message). -/
def extractComponentData (createProgram : String → Except String Program)
    (componentPath componentName : String) : Extraction :=
  match createProgram componentPath with
  | Except.error message => Extraction.threw message
  | Except.ok program =>
    let checker := program.getTypeChecker
    match program.getSourceFile componentPath with
    | none => Extraction.returned ["Could not load " ++ componentPath] none
    | some sourceFile =>
      let props := visit checker componentName sourceFile []
      Extraction.returned [] (some
        { component_name := componentName
          import_path := "@mui/material/" ++ componentName
          props := props
          events := classify props
          slots := [] })


/-! ## Environment and results of a run -/

/-- Element of the array returned by `getAllMUIComponents()`. -/
structure Component where
  name : String
  path : String
deriving DecidableEq, Repr

/-- Element of `componentIndex`. -/
structure IndexEntry where
  file : String
  component_name : String
  import_path : String
  props_count : Nat
  events_count : Nat
  has_slots : Bool
deriving DecidableEq, Repr

/-- The `indexData` object. -/
structure IndexData where
  description : String
  version : String
  extraction_date : String
  total_components : Nat
  components : List IndexEntry
deriving DecidableEq, Repr

/-- What a call of `fs.writeFileSync` is given to write: the value whose
`JSON.stringify` text is the file's content. -/
inductive FileContent where
  | component (data : ComponentData)
  | index (indexData : IndexData)
  | all (allComponentData : List (String × ComponentData))
deriving DecidableEq, Repr

/-- What the script reads from and does to its environment.
`existsSync`, `mkdirSync`, `readdirSync` and `writeFileSync` are the `fs`
functions; `statIsDirectory p` is `fs.statSync(p).isDirectory()`;
`readPackageExports p` is `JSON.parse(fs.readFileSync(p, 'utf-8'))` followed
by the read of `.exports`: `none` when `exports` is falsy, otherwise the keys
of `Object.entries(packageJson.exports)` in order.  `pathJoin` is `path.join`
on two segments and `toLowerCase` is `String.prototype.toLowerCase`.
`createProgram` is `ts.createProgram` and `now` the text of
`new Date().toISOString()`.  Each service is a function of its arguments: the
outcome of a call does not depend on the calls made before it. -/
structure World where
  existsSync : String → Bool
  mkdirSync : String → Except String Unit
  readdirSync : String → Except String (List String)
  statIsDirectory : String → Except String Bool
  readPackageExports : String → Except String (Option (List String))
  writeFileSync : String → FileContent → Except String Unit
  pathJoin : String → String → String
  toLowerCase : String → String
  createProgram : String → Except String Program
  now : String

/-- The constant `MUI_PACKAGE_PATH`. -/
def MUI_PACKAGE_PATH : String := "node_modules/@mui/material"

/-- The constant `OUTPUT_DIR`. -/
def OUTPUT_DIR : String := "./mui_migration/component_extraction"

/-- State of the loop of `extractAllComponents`: the object
`allComponentData` (its keys in insertion order), the array `componentIndex`,
the lines written with `console.error` and the files written, in order. -/
structure Run where
  allComponentData : List (String × ComponentData)
  componentIndex : List IndexEntry
  errors : List String
  files : List (String × FileContent)
deriving DecidableEq, Repr

/-- Value the promise of `extractAllComponents` can hand to its caller:
`undefined`, or a list of failure entries (component name, reason). -/
inductive Returned where
  | undefined
  | failureList (entries : List (String × String))
deriving DecidableEq, Repr

/-- Failure entries a caller can read from a returned value. -/
def Returned.failureEntries : Returned → List (String × String)
  | Returned.undefined => []
  | Returned.failureList entries => entries

/-- Everything a completed run of `extractAllComponents` produced. -/
structure Completed where
  allComponentData : List (String × ComponentData)
  indexData : IndexData
  errors : List String
  files : List (String × FileContent)
  returned : Returned
deriving DecidableEq, Repr

/-- Ways `extractAllComponents` ends: `process.exit(code)`, a rejected promise
(an exception left the body; `errors` and `files` are what had been written
until then) or completion. -/
inductive Outcome where
  | exited (code : Nat) (errors : List String)
  | rejected (reason : String) (errors : List String) (files : List (String × FileContent))
  | completed (result : Completed)
deriving DecidableEq, Repr

/-! ## Discovery -/

/-- The inner loop of `getAllMUIComponents` over `componentFiles`: the first
candidate file that exists. -/
def findComponentFile (w : World) (itemPath item : String) : Option String :=
  [w.pathJoin itemPath (item ++ ".d.ts"),
   w.pathJoin itemPath (item ++ ".tsx"),
   w.pathJoin itemPath (item ++ ".js"),
   w.pathJoin itemPath "index.d.ts"].find? w.existsSync

/-- The loop `for (const item of items)` of `getAllMUIComponents`, threading
`components`; `fs.statSync` may throw. -/
def scanItems (w : World) (componentsDir : String) :
    List String → List Component → Except String (List Component)
  | [], components => Except.ok components
  | item :: rest, components =>
    let itemPath := w.pathJoin componentsDir item
    match w.statIsDirectory itemPath with
    | Except.error message => Except.error message
    | Except.ok isDirectory =>
      if isDirectory && startsUpper item then
        match findComponentFile w itemPath item with
        | some file => scanItems w componentsDir rest (components ++ [{ name := item, path := file }])
        | none => scanItems w componentsDir rest components
      else scanItems w componentsDir rest components

/-- Function `getAllMUIComponents()`. -/
def getAllMUIComponents (w : World) : Except String (List Component) :=
  let componentsDir := w.pathJoin MUI_PACKAGE_PATH "src"
  if w.existsSync componentsDir then
    match w.readdirSync componentsDir with
    | Except.error message => Except.error message
    | Except.ok items => scanItems w componentsDir items []
  else Except.ok []

/-- The loop of `extractFromPackageExports` over the keys of the export map. -/
def exportedComponents (keys : List String) : List String :=
  ((keys.filter (fun key => startsWith key "./" && !key.data.contains '*')).map
    (fun key => (⟨key.data.drop 2⟩ : String))).filter startsUpper

/-- Function `extractFromPackageExports()`. -/
def extractFromPackageExports (w : World) : Except String (List String) :=
  let packageJsonPath := w.pathJoin MUI_PACKAGE_PATH "package.json"
  if w.existsSync packageJsonPath then
    match w.readPackageExports packageJsonPath with
    | Except.error message => Except.error message
    | Except.ok (some keys) => Except.ok (exportedComponents keys)
    | Except.ok none => Except.ok []
  else Except.ok []

/-! ## Aggregation -/

/-- Assignment `obj[key] = value` on an object kept as a key/value list: an
existing key keeps its place and takes the new value, a new key is appended. -/
def setKey (obj : List (String × ComponentData)) (key : String) (value : ComponentData) :
    List (String × ComponentData) :=
  match obj with
  | [] => [(key, value)]
  | (k, v) :: rest => if k = key then (k, value) :: rest else (k, v) :: setKey rest key value

/-- The file name the loop computes twice for a component:
`component.name.toLowerCase()` followed by `-mui-v7-auto.json`. -/
def componentFileName (w : World) (component : Component) : String :=
  w.toLowerCase component.name ++ "-mui-v7-auto.json"

/-- The `outputPath` local of the loop. -/
def outputPath (w : World) (component : Component) : String :=
  w.pathJoin OUTPUT_DIR (componentFileName w component)

/-- The entry pushed onto `componentIndex` for a component and its data. -/
def indexEntry (w : World) (component : Component) (data : ComponentData) : IndexEntry :=
  { file := componentFileName w component
    component_name := component.name
    import_path := data.import_path
    props_count := data.props.length
    events_count := data.events.length
    has_slots := decide (data.slots.length > 0) }

/-- The line `console.error` writes in the `catch` of the loop. -/
def catchLine (component : Component) (message : String) : String :=
  "Error extracting " ++ component.name ++ ": " ++ message

/-- One iteration of the `for (const component of components)` loop, with its
`try`/`catch`: the extraction, the assignment to `allComponentData`, the write
of the component file and the push onto `componentIndex` are all inside the
`try`, so an exception of the write is caught after the assignment and before
the push. -/
def processComponent (w : World) (st : Run) (component : Component) : Run :=
  match extractComponentData w.createProgram component.path component.name with
  | Extraction.threw message => { st with errors := st.errors ++ [catchLine component message] }
  | Extraction.returned lines none => { st with errors := st.errors ++ lines }
  | Extraction.returned lines (some data) =>
    let allComponentData := setKey st.allComponentData component.name data
    match w.writeFileSync (outputPath w component) (FileContent.component data) with
    | Except.error message =>
      { st with
        allComponentData := allComponentData
        errors := st.errors ++ lines ++ [catchLine component message] }
    | Except.ok _ =>
      { allComponentData := allComponentData
        componentIndex := st.componentIndex ++ [indexEntry w component data]
        errors := st.errors ++ lines
        files := st.files ++ [(outputPath w component, FileContent.component data)] }

/-- The loop of `extractAllComponents` over the discovered components. -/
def runLoop (w : World) (components : List Component) : Run :=
  components.foldl (processComponent w)
    { allComponentData := [], componentIndex := [], errors := [], files := [] }

/-- The `indexData` object built after the loop. -/
def indexDataOf (w : World) (run : Run) : IndexData :=
  { description := "MUI v7 Components (Auto-extracted)"
    version := "7.x"
    extraction_date := w.now
    total_components := run.allComponentData.length
    components := run.componentIndex }

/-- The end of `extractAllComponents`, after the loop: the two unguarded
writes of the index and of all component data.  The body has no `return`
statement, so on completion the promise resolves to `undefined`. -/
def finishRun (w : World) (run : Run) : Outcome :=
  let indexPath := w.pathJoin OUTPUT_DIR "mui_v7_components_auto_complete.json"
  let allPath := w.pathJoin OUTPUT_DIR "all_mui_components_auto.json"
  match w.writeFileSync indexPath (FileContent.index (indexDataOf w run)) with
  | Except.error message => Outcome.rejected message run.errors run.files
  | Except.ok _ =>
    match w.writeFileSync allPath (FileContent.all run.allComponentData) with
    | Except.error message =>
      Outcome.rejected message run.errors (run.files ++ [(indexPath, FileContent.index (indexDataOf w run))])
    | Except.ok _ =>
      Outcome.completed
        { allComponentData := run.allComponentData
          indexData := indexDataOf w run
          errors := run.errors
          files := run.files ++ [(indexPath, FileContent.index (indexDataOf w run)),
                                 (allPath, FileContent.all run.allComponentData)]
          returned := Returned.undefined }

/-- Function `extractAllComponents()`.  None of the calls outside the loop is
guarded, so an exception of `mkdirSync`, of discovery or of the final writes
rejects the promise.  `console.log` output is not recorded. -/
def extractAllComponents (w : World) : Outcome :=
  if !w.existsSync MUI_PACKAGE_PATH then
    Outcome.exited 1 ["MUI not found! Please run: npm install @mui/material"]
  else
    match (if !w.existsSync OUTPUT_DIR then w.mkdirSync OUTPUT_DIR else Except.ok ()) with
    | Except.error message => Outcome.rejected message [] []
    | Except.ok _ =>
      match getAllMUIComponents w with
      | Except.error message => Outcome.rejected message [] []
      | Except.ok components =>
        match extractFromPackageExports w with
        | Except.error message => Outcome.rejected message [] []
        | Except.ok _ => finishRun w (runLoop w components)

/-! ## Concrete inputs used by the examples -/

/-- A checker for the examples: member symbol `0` has type `string`, member
symbol `1` has type `() => void` and any other symbol `any`; the interface name at position `1` (`BoxProps`) resolves to a
symbol with the members `once` and `onClick`, the one at position `3`
(`SloppyProps`) to a symbol with the member `label`. -/
def demoChecker : Checker :=
  { getTypeOfSymbolAtLocation := fun prop _ => prop.ident
    typeToString := fun t => if t = 0 then "string" else if t = 1 then "() => void" else "any"
    getSymbolAtLocation := fun name =>
      if name.pos = 1 then
        some ⟨some
          [("once", ⟨0, "once", SymbolFlags.property, some ⟨DeclKind.propertySignature, true⟩, []⟩),
           ("onClick", ⟨1, "onClick", SymbolFlags.property, some ⟨DeclKind.propertySignature, true⟩,
                        [⟨"description", TagText.string "Click handler."⟩]⟩)]⟩
      else if name.pos = 3 then
        some ⟨some [("label", ⟨0, "label", SymbolFlags.property, some ⟨DeclKind.propertySignature, false⟩, []⟩)]⟩
      else none }

/-- Syntax tree of `Widget/Widget.d.ts` in the examples: one interface, named
`WidgetOwnProps`. -/
def demoWidgetFile : Node :=
  Node.other [Node.interfaceDeclaration ⟨"WidgetOwnProps", 2⟩ []]

/-- A program for the examples.  It has the source files of `Box` (declaring
`BoxProps`), of `Widget` and of `Sloppy` (declaring `SloppyProps`, with a
syntax error recorded by the parser) and no other file. -/
def demoProgram : Program :=
  { getTypeChecker := demoChecker
    getSourceFile := fun file =>
      if file = "node_modules/@mui/material/src/Box/Box.d.ts" then
        some (Node.other [Node.other [], Node.interfaceDeclaration ⟨"BoxProps", 1⟩ [Node.other []]])
      else if file = "node_modules/@mui/material/src/Widget/Widget.d.ts" then some demoWidgetFile
      else if file = "node_modules/@mui/material/src/Sloppy/Sloppy.tsx" then
        some (Node.other [Node.interfaceDeclaration ⟨"SloppyProps", 3⟩ [Node.other []], Node.other []])
      else none
    getSyntacticDiagnostics := fun file =>
      if file = "node_modules/@mui/material/src/Sloppy/Sloppy.tsx" then ["';' expected."] else [] }

/-- A compiler for the examples: creating a program for the file of `Broken`
throws; otherwise the program is `demoProgram`. -/
def demoCreateProgram : String → Except String Program := fun componentPath =>
  if componentPath = "node_modules/@mui/material/src/Broken/Broken.d.ts" then Except.error "Debug Failure."
  else Except.ok demoProgram

/-- The function `path.join` on the segments of the examples: the segments
joined by `/`, without a leading `./`. -/
def demoPathJoin (a b : String) : String :=
  if startsWith a "./" then ⟨a.data.drop 2 ++ '/' :: b.data⟩ else ⟨a.data ++ '/' :: b.data⟩

/-- The function `toLowerCase` on the names of the examples, which are ASCII. -/
def demoToLowerCase (s : String) : String :=
  ⟨s.data.map Char.toLower⟩

/-- An environment for the examples.  The package directory lists the
directories `Box`, `Broken`, `Gone`, `Sloppy`, `Widget` and `utils` and the
file `index.d.ts`; the output directory does not exist yet; every write
succeeds.  `Box` has a props interface, `Broken` makes the compiler throw,
the file of `Gone` is not loaded by the compiler, `Sloppy` has a syntax error
and `Widget` has no props interface. -/
def demoWorld : World :=
  { existsSync := fun p =>
      ["node_modules/@mui/material", "node_modules/@mui/material/src",
       "node_modules/@mui/material/package.json",
       "node_modules/@mui/material/src/Box/Box.d.ts",
       "node_modules/@mui/material/src/Broken/Broken.d.ts",
       "node_modules/@mui/material/src/Gone/index.d.ts",
       "node_modules/@mui/material/src/Sloppy/Sloppy.tsx",
       "node_modules/@mui/material/src/Widget/Widget.d.ts",
       "node_modules/@mui/material/src/utils/index.d.ts"].contains p
    mkdirSync := fun _ => Except.ok ()
    readdirSync := fun _ => Except.ok ["Box", "Broken", "Gone", "Sloppy", "Widget", "index.d.ts", "utils"]
    statIsDirectory := fun p => Except.ok (p != "node_modules/@mui/material/src/index.d.ts")
    readPackageExports := fun _ => Except.ok (some [".", "./Box", "./Widget", "./*", "./utils"])
    writeFileSync := fun _ _ => Except.ok ()
    pathJoin := demoPathJoin
    toLowerCase := demoToLowerCase
    createProgram := demoCreateProgram
    now := "2025-01-01T00:00:00.000Z" }

/-- The components `getAllMUIComponents` discovers in `demoWorld`. -/
def demoComponents : List Component :=
  [⟨"Box", "node_modules/@mui/material/src/Box/Box.d.ts"⟩,
   ⟨"Broken", "node_modules/@mui/material/src/Broken/Broken.d.ts"⟩,
   ⟨"Gone", "node_modules/@mui/material/src/Gone/index.d.ts"⟩,
   ⟨"Sloppy", "node_modules/@mui/material/src/Sloppy/Sloppy.tsx"⟩,
   ⟨"Widget", "node_modules/@mui/material/src/Widget/Widget.d.ts"⟩]

/-- The environment `demoWorld` with a full disk for one file: writing the
component file of `Widget` throws. -/
def demoWorldWriteFails : World :=
  { demoWorld with
    writeFileSync := fun p _ =>
      if p = "mui_migration/component_extraction/widget-mui-v7-auto.json" then
        Except.error "ENOSPC: no space left on device, write"
      else Except.ok () }

/-- The member table the compiler builds for
`interface GenericProps<T> { value: T }`: the type parameter first, then the
declared member. -/
def demoGenericTable : List (String × MemberSymbol) :=
  [("T", ⟨2, "T", SymbolFlags.typeParameter, none, []⟩),
   ("value", ⟨0, "value", SymbolFlags.property, some ⟨DeclKind.propertySignature, false⟩, []⟩)]

/-- The member table the compiler builds for
`interface RawProps { __html: string }`: the key is the escaped name. -/
def demoEscapedTable : List (String × MemberSymbol) :=
  [("___html", ⟨0, "__html", SymbolFlags.property, some ⟨DeclKind.propertySignature, false⟩, []⟩)]

/-! ## Notions used to state the claims -/

/-- Projection of a prop record to the three fields an event record has. -/
def PropRecord.toEvent (p : PropRecord) : EventRecord :=
  { name := p.name, type := p.type, description := p.description }

/-- The specification's event-naming convention: the name begins with the two
characters `on` immediately followed by an uppercase letter `A`..`Z`. -/
def specIsEventName (name : String) : Bool :=
  match name.data with
  | 'o' :: 'n' :: c :: _ => c.isUpper
  | _ => false

/-- Names of the members an interface declares, in the order of its member
table: the entries that are not type parameters, under the names written in
the source. -/
def declaredMemberNames (members : List (String × MemberSymbol)) : List String :=
  (members.filter (fun entry => entry.2.flags != SymbolFlags.typeParameter)).map (fun entry => entry.2.name)

mutual
/-- Names of the interface declarations of a syntax tree, at any depth, in the
order `visit` meets them. -/
def interfaceNames : Node → List String
  | Node.interfaceDeclaration name children => name.text :: interfaceNamesOfList children
  | Node.other children => interfaceNamesOfList children
/-- Names of the interface declarations of a list of trees. -/
def interfaceNamesOfList : List Node → List String
  | [] => []
  | child :: rest => interfaceNames child ++ interfaceNamesOfList rest
end

/-- Result of a component's extraction when it succeeded: the data returned by
`extractComponentData`, or `none` when the call threw or returned `null`. -/
def extractionResult (createProgram : String → Except String Program) (component : Component) :
    Option ComponentData :=
  match extractComponentData createProgram component.path component.name with
  | Extraction.returned _ value => value
  | Extraction.threw _ => none

/-- Whether the module of a component can be loaded: the compiler does not
throw and has a source file for the component's path. -/
def loadable (createProgram : String → Except String Program) (component : Component) : Bool :=
  match createProgram component.path with
  | Except.error _ => false
  | Except.ok program => (program.getSourceFile component.path).isSome

/-- Whether the module of a component fails to parse: the compiler built a
program and recorded syntax errors for the component's file. -/
def hasSyntaxErrors (createProgram : String → Except String Program) (component : Component) : Bool :=
  match createProgram component.path with
  | Except.error _ => false
  | Except.ok program => !(program.getSyntacticDiagnostics component.path).isEmpty

/-- Message of the exception thrown by the write of a component's file, if
the component's extraction returned a result and that write throws. -/
def writeFailure (w : World) (component : Component) : Option String :=
  match extractionResult w.createProgram component with
  | none => none
  | some data =>
    match w.writeFileSync (outputPath w component) (FileContent.component data) with
    | Except.error message => some message
    | Except.ok _ => none

/-- The index entry of a component, if its extraction returned a result and
the write of its file did not throw. -/
def indexedEntry (w : World) (component : Component) : Option IndexEntry :=
  match extractionResult w.createProgram component with
  | none => none
  | some data =>
    match w.writeFileSync (outputPath w component) (FileContent.component data) with
    | Except.error _ => none
    | Except.ok _ => some (indexEntry w component data)

/-- The file written for a component, if its extraction returned a result and
the write did not throw. -/
def writtenFile (w : World) (component : Component) : Option (String × FileContent) :=
  match extractionResult w.createProgram component with
  | none => none
  | some data =>
    match w.writeFileSync (outputPath w component) (FileContent.component data) with
    | Except.error _ => none
    | Except.ok _ => some (outputPath w component, FileContent.component data)

/-- The `console.error` lines expected for a component: the `catch` line when
the compiler threw, the `Could not load` line when there is no source file,
the `catch` line when the write of the component's file threw, and no line
otherwise. -/
def expectedErrorLines (w : World) (component : Component) : List String :=
  match w.createProgram component.path with
  | Except.error message => [catchLine component message]
  | Except.ok program =>
    match program.getSourceFile component.path with
    | none => ["Could not load " ++ component.path]
    | some _ =>
      match writeFailure w component with
      | some message => [catchLine component message]
      | none => []

/-! ## Lemmas on the member extractor -/

theorem foldl_push_eq_map {α β : Type} (f : α → β) (l : List α) (acc : List β) :
    l.foldl (fun props entry => props ++ [f entry]) acc = acc ++ l.map f := by
  induction l generalizing acc with
  | nil => simp
  | cons a t ih => simp [ih]

theorem extractPropsFromInterface_eq_map (checker : Checker) (members : List (String × MemberSymbol)) :
    extractPropsFromInterface checker (some { members := some members })
      = members.map (fun entry => memberRecord checker entry.1 entry.2) := by
  simp [extractPropsFromInterface, foldl_push_eq_map]

theorem extractPropsFromInterface_getElem? (checker : Checker) (members : List (String × MemberSymbol))
    (i : Nat) (propName : String) (prop : MemberSymbol) (h : members[i]? = some (propName, prop)) :
    (extractPropsFromInterface checker (some { members := some members }))[i]?
      = some (memberRecord checker propName prop) := by
  rw [extractPropsFromInterface_eq_map, List.getElem?_map, h]
  rfl

/-- One record per entry of the member table, in the table's order, named by
the entry's key; an empty or missing table and a missing symbol give the empty
list. -/
theorem extractPropsFromInterface_table (checker : Checker)
    (members : List (String × MemberSymbol)) :
    (extractPropsFromInterface checker (some { members := some members })).length = members.length
    ∧ (∀ i : Nat, ((extractPropsFromInterface checker (some { members := some members }))[i]?).map PropRecord.name
          = (members[i]?).map Prod.fst)
    ∧ (extractPropsFromInterface checker (some { members := some members })).map PropRecord.name
          = members.map Prod.fst
    ∧ extractPropsFromInterface checker (some { members := some [] }) = []
    ∧ extractPropsFromInterface checker (some { members := none }) = []
    ∧ extractPropsFromInterface checker none = [] := by
  refine ⟨?_, ?_, ?_, rfl, rfl, rfl⟩
  · simp [extractPropsFromInterface_eq_map]
  · intro i
    rw [extractPropsFromInterface_eq_map, List.getElem?_map]
    cases members[i]? <;> simp [memberRecord]
  · rw [extractPropsFromInterface_eq_map, List.map_map]
    rfl

theorem strOr_empty_right (a : String) : strOr a "" = a := by
  unfold strOr
  split <;> simp_all

theorem join_eq_empty_iff (sep : String) (h : sep ≠ "") (l : List String) :
    join sep l = "" ↔ l = [] ∨ l = [""] := by
  match l with
  | [] => simp [join]
  | [s] => simp [join]
  | s :: t :: rest =>
    simp only [join, reduceCtorEq, List.cons.injEq, and_false, or_self, iff_false]
    intro hc
    have hlen := congrArg String.length hc
    have h1 : sep.length ≠ 0 := by
      intro h0
      apply h
      cases sep with
      | mk d =>
        have hd : d = [] := List.length_eq_zero.mp h0
        rw [hd]
    have h2 : "".length = 0 := rfl
    simp only [String.length_append] at hlen
    omega

theorem find?_eq_none_of_forall {α : Type} (p : α → Bool) (l : List α) (h : ∀ a ∈ l, p a = false) :
    l.find? p = none := by
  induction l with
  | nil => rfl
  | cons a t ih =>
    have ha : p a = false := h a (List.mem_cons_self a t)
    have ht : ∀ b ∈ t, p b = false := fun b hb => h b (List.mem_cons_of_mem a hb)
    simp [List.find?, ha, ih ht]

theorem find?_append_first {α : Type} (p : α → Bool) (before after : List α) (a : α)
    (hb : ∀ b ∈ before, p b = false) (ha : p a = true) :
    (before ++ a :: after).find? p = some a := by
  induction before with
  | nil => simp [List.find?, ha]
  | cons b t ih =>
    have hb0 : p b = false := hb b (List.mem_cons_self b t)
    have ht : ∀ c ∈ t, p c = false := fun c hc => hb c (List.mem_cons_of_mem b hc)
    simp [List.find?, hb0, ih ht]

theorem find?_some_split {α : Type} (p : α → Bool) (l : List α) (a : α) :
    l.find? p = some a →
      ∃ before after, l = before ++ a :: after ∧ p a = true ∧ ∀ b ∈ before, p b = false := by
  induction l with
  | nil =>
    intro h
    simp at h
  | cons x t ih =>
    intro h
    cases hx : p x with
    | true =>
      simp only [List.find?, hx, Option.some.injEq] at h
      subst h
      exact ⟨[], t, rfl, hx, by simp⟩
    | false =>
      simp only [List.find?, hx] at h
      obtain ⟨before, after, hsplit, ha, hbefore⟩ := ih h
      refine ⟨x :: before, after, by rw [hsplit]; rfl, ha, ?_⟩
      intro b hb
      rcases List.mem_cons.mp hb with hbx | hbt
      · rw [hbx]
        exact hx
      · exact hbefore b hbt

/-! ## Claims on the member extractor -/

/-- C5 (the code evaluated at the failing inputs): for
`interface GenericProps<T> { value: T }` the member table holds the type
parameter as well, so two records, `T` and `value`, are returned for the one
declared member `value`; for `interface RawProps { __html: string }` the
record is named by the escaped key `___html`, not by the declared name. -/
theorem type_parameter_extracted_as_member :
    (extractPropsFromInterface demoChecker (some ⟨some demoGenericTable⟩)).map PropRecord.name = ["T", "value"]
    ∧ declaredMemberNames demoGenericTable = ["value"]
    ∧ (extractPropsFromInterface demoChecker (some ⟨some demoGenericTable⟩)).map PropRecord.description
        = ["T property", "value property"]
    ∧ (extractPropsFromInterface demoChecker (some ⟨some demoEscapedTable⟩)).map PropRecord.name = ["___html"]
    ∧ declaredMemberNames demoEscapedTable = ["__html"] := by
  decide

/-- C2 (as stated, refuted): a member declared by a method signature that
carries a question token gets `required = true`, not `false`. -/
theorem required_optional_method_counterexample :
    (extractPropsFromInterface demoChecker
        (some ⟨some
          [("reset", ⟨1, "reset", SymbolFlags.method, some ⟨DeclKind.methodSignature, true⟩, []⟩)]⟩)).map
      PropRecord.required = [true] := by
  decide

/-- C2 (amended): the record of a member has `required = false` exactly when
the member has a value declaration that is a property signature carrying a
question token; hence for property signatures `required` is the negation of
the marker, and for every other declaration kind, or no declaration,
`required = true` whatever the marker. -/
theorem required_iff_optional_property_signature (checker : Checker)
    (members : List (String × MemberSymbol)) (i : Nat) (propName : String) (prop : MemberSymbol)
    (h : members[i]? = some (propName, prop)) :
    ∃ r, (extractPropsFromInterface checker (some { members := some members }))[i]? = some r
      ∧ (r.required = false ↔
          ∃ d, prop.valueDeclaration = some d ∧ d.kind = DeclKind.propertySignature ∧ d.questionToken = true)
      ∧ (∀ d, prop.valueDeclaration = some d → d.kind = DeclKind.propertySignature →
          r.required = !d.questionToken)
      ∧ (∀ d, prop.valueDeclaration = some d → d.kind ≠ DeclKind.propertySignature → r.required = true)
      ∧ (prop.valueDeclaration = none → r.required = true) := by
  refine ⟨_, extractPropsFromInterface_getElem? checker members i propName prop h, ?_, ?_, ?_, ?_⟩
  · cases hd : prop.valueDeclaration with
    | none => simp [memberRecord, isOptional, hd]
    | some d => simp [memberRecord, isOptional, hd]
  · intro d hd hk
    simp [memberRecord, isOptional, hd, hk]
  · intro d hd hk
    simp [memberRecord, isOptional, hd, hk]
  · intro hd
    simp [memberRecord, isOptional, hd]

/-- Witness for C2 (amended): an optional property signature `disabled?`. -/
theorem required_iff_optional_property_signature_witness :
    ∃ r, (extractPropsFromInterface demoChecker (some ⟨some
          [("disabled", ⟨0, "disabled", SymbolFlags.property, some ⟨DeclKind.propertySignature, true⟩,
                         []⟩)]⟩))[0]? = some r
      ∧ r.required = false := by
  obtain ⟨r, hr, hiff, -⟩ := required_iff_optional_property_signature demoChecker
    [("disabled", ⟨0, "disabled", SymbolFlags.property, some ⟨DeclKind.propertySignature, true⟩, []⟩)]
    0 "disabled" _ rfl
  exact ⟨r, hr, hiff.mpr ⟨_, rfl, rfl, rfl⟩⟩

/-- C3 (as stated, refuted): a member whose only `description` tag has the
empty text gets the generated fallback, not the (empty) joined text. -/
theorem description_empty_text_counterexample :
    (extractPropsFromInterface demoChecker
        (some ⟨some [("size", ⟨0, "size", SymbolFlags.property, none,
                                [⟨"description", TagText.string ""⟩]⟩)]⟩)).map PropRecord.description
      = ["size property"]
    ∧ join " " (((([⟨"description", TagText.string ""⟩] : List JsDocTag).filter
        (fun tag => tag.name == "description")).map JsDocTag.text).map TagText.toJoinString) = "" := by
  decide

/-- C3 (amended): with `texts` the texts of the member's tags named
`description`, in order, each read as the string `join` makes of it, the
record's description is `texts` joined by one space whenever that joined
string is non-empty, and the fallback `<name> property` whenever it is empty;
the joined string is empty exactly when there is no `description` tag or the
only one has the empty text. -/
theorem description_joined_or_fallback (checker : Checker)
    (members : List (String × MemberSymbol)) (i : Nat) (propName : String) (prop : MemberSymbol)
    (h : members[i]? = some (propName, prop)) :
    ∃ r, (extractPropsFromInterface checker (some ⟨some members⟩))[i]? = some r
      ∧ (join " " (((prop.jsDocTags.filter (fun tag => tag.name == "description")).map JsDocTag.text).map
            TagText.toJoinString) ≠ "" →
          r.description
            = join " " (((prop.jsDocTags.filter (fun tag => tag.name == "description")).map JsDocTag.text).map
                TagText.toJoinString))
      ∧ (join " " (((prop.jsDocTags.filter (fun tag => tag.name == "description")).map JsDocTag.text).map
            TagText.toJoinString) = "" →
          r.description = propName ++ " property")
      ∧ (join " " (((prop.jsDocTags.filter (fun tag => tag.name == "description")).map JsDocTag.text).map
            TagText.toJoinString) = "" ↔
          ((prop.jsDocTags.filter (fun tag => tag.name == "description")).map JsDocTag.text).map
              TagText.toJoinString = []
          ∨ ((prop.jsDocTags.filter (fun tag => tag.name == "description")).map JsDocTag.text).map
              TagText.toJoinString = [""]) := by
  refine ⟨_, extractPropsFromInterface_getElem? checker members i propName prop h, ?_, ?_, ?_⟩
  · intro hne
    simp only [memberRecord, descriptionOf, strOr_empty_right]
    unfold strOr
    rw [if_neg hne]
  · intro he
    simp only [memberRecord, descriptionOf, strOr_empty_right]
    unfold strOr
    rw [if_pos he]
  · exact join_eq_empty_iff " " (by decide) _

/-- Witness for C3 (amended): two `description` tags are joined by one space. -/
theorem description_joined_or_fallback_witness :
    ∃ r, (extractPropsFromInterface demoChecker
        (some ⟨some [("size", ⟨0, "size", SymbolFlags.property, none,
            [⟨"description", TagText.string "The size."⟩, ⟨"default", TagText.string "4"⟩,
             ⟨"description", TagText.string "In pixels."⟩]⟩)]⟩))[0]?
          = some r
      ∧ r.description = "The size. In pixels." := by
  obtain ⟨r, hr, hjoin, -⟩ := description_joined_or_fallback demoChecker
    [("size", ⟨0, "size", SymbolFlags.property, none,
        [⟨"description", TagText.string "The size."⟩, ⟨"default", TagText.string "4"⟩,
         ⟨"description", TagText.string "In pixels."⟩]⟩)]
    0 "size" _ rfl
  exact ⟨r, hr, hjoin (by decide)⟩

/-- C4 (as stated, refuted): for a `default` tag without text (`/** @default */`)
the compiler gives no `text`, and `extractDefaultValue` returns undefined
although the list contains a tag named `default`; the record's `default` is
then absent as for a missing tag. -/
theorem default_tag_without_text_counterexample :
    extractDefaultValue [⟨"default", TagText.undefined⟩] = TagText.undefined
    ∧ (∃ tag ∈ ([⟨"default", TagText.undefined⟩] : List JsDocTag), tag.name = "default")
    ∧ (extractPropsFromInterface demoChecker
        (some ⟨some [("disabled", ⟨0, "disabled", SymbolFlags.property,
            some ⟨DeclKind.propertySignature, true⟩, [⟨"default", TagText.undefined⟩]⟩)]⟩)).map PropRecord.dflt
        = [TagText.undefined] := by
  decide

/-- C4 (amended): `extractDefaultValue` returns undefined when no tag is named
`default`, and otherwise the text of the first tag named `default` exactly as
the compiler gives it; so the result is undefined if and only if there is no
`default` tag or the first one carries no text.  A `default` tag whose text is
the empty string yields the empty string, which differs from the result for a
missing tag; and the `default` field of every extracted record is this value
for the member's tags. -/
theorem extractDefaultValue_first_default_text (jsDocs : List JsDocTag) :
    ((∀ tag ∈ jsDocs, tag.name ≠ "default") → extractDefaultValue jsDocs = TagText.undefined)
    ∧ (∀ (before : List JsDocTag) (tag : JsDocTag) (after : List JsDocTag),
        jsDocs = before ++ tag :: after → tag.name = "default" →
        (∀ earlier ∈ before, earlier.name ≠ "default") → extractDefaultValue jsDocs = tag.text)
    ∧ (extractDefaultValue jsDocs = TagText.undefined ↔
        (∀ tag ∈ jsDocs, tag.name ≠ "default")
        ∨ ∃ (before : List JsDocTag) (tag : JsDocTag) (after : List JsDocTag),
            jsDocs = before ++ tag :: after ∧ tag.name = "default"
            ∧ (∀ earlier ∈ before, earlier.name ≠ "default") ∧ tag.text = TagText.undefined)
    ∧ extractDefaultValue [⟨"default", TagText.string ""⟩] = TagText.string ""
    ∧ extractDefaultValue [⟨"default", TagText.string ""⟩] ≠ extractDefaultValue []
    ∧ (∀ (checker : Checker) (members : List (String × MemberSymbol)),
        (extractPropsFromInterface checker (some ⟨some members⟩)).map PropRecord.dflt
          = members.map (fun entry => extractDefaultValue entry.2.jsDocTags)) := by
  have hnone : (∀ tag ∈ jsDocs, tag.name ≠ "default") → extractDefaultValue jsDocs = TagText.undefined := by
    intro hall
    unfold extractDefaultValue
    rw [find?_eq_none_of_forall _ _ (fun tag hmem => by simpa using hall tag hmem)]
  have hfirst : ∀ (before : List JsDocTag) (tag : JsDocTag) (after : List JsDocTag),
      jsDocs = before ++ tag :: after → tag.name = "default" →
      (∀ earlier ∈ before, earlier.name ≠ "default") → extractDefaultValue jsDocs = tag.text := by
    intro before tag after hsplit hname hbefore
    unfold extractDefaultValue
    rw [hsplit, find?_append_first _ before after tag
      (fun earlier hmem => by simpa using hbefore earlier hmem) (by simp [hname])]
  refine ⟨hnone, hfirst, ?_, by decide, by decide, ?_⟩
  · constructor
    · intro hundef
      cases hf : jsDocs.find? (fun tag => tag.name == "default") with
      | none =>
        left
        intro tag hmem hname
        have := List.find?_eq_none.mp hf tag hmem
        simp [hname] at this
      | some found =>
        right
        obtain ⟨before, after, hsplit, hfound, hbefore⟩ := find?_some_split _ _ _ hf
        refine ⟨before, found, after, hsplit, by simpa using hfound, ?_, ?_⟩
        · intro earlier hmem
          simpa using hbefore earlier hmem
        · unfold extractDefaultValue at hundef
          rw [hf] at hundef
          exact hundef
    · rintro (hall | ⟨before, tag, after, hsplit, hname, hbefore, htext⟩)
      · exact hnone hall
      · rw [hfirst before tag after hsplit hname hbefore, htext]
  · intro checker members
    rw [extractPropsFromInterface_eq_map, List.map_map]
    rfl

/-- Witness for C4 (amended): the first of two `default` tags is the one
returned. -/
theorem extractDefaultValue_first_default_text_witness :
    extractDefaultValue [⟨"description", TagText.string "Size."⟩, ⟨"default", TagText.string "false"⟩,
        ⟨"default", TagText.string "true"⟩] = TagText.string "false" :=
  (extractDefaultValue_first_default_text
      [⟨"description", TagText.string "Size."⟩, ⟨"default", TagText.string "false"⟩,
       ⟨"default", TagText.string "true"⟩]).2.1
    [⟨"description", TagText.string "Size."⟩] ⟨"default", TagText.string "false"⟩
    [⟨"default", TagText.string "true"⟩] rfl rfl (by decide)

/-! ## Lemmas on the per-component driver -/

theorem classify_eq_filter_map (props : List PropRecord) :
    classify props = (props.filter (fun prop => startsWith prop.name "on")).map PropRecord.toEvent :=
  rfl

theorem startsWith_on_iff (s : String) : startsWith s "on" = true ↔ ∃ rest : String, s = "on" ++ rest := by
  unfold startsWith
  rw [List.isPrefixOf_iff_prefix]
  constructor
  · rintro ⟨t, ht⟩
    refine ⟨⟨t⟩, ?_⟩
    apply String.ext
    rw [String.data_append, ← ht]
  · rintro ⟨rest, hrest⟩
    refine ⟨rest.data, ?_⟩
    rw [hrest, String.data_append]

theorem extractComponentData_returned_some (createProgram : String → Except String Program)
    (componentPath componentName : String) (lines : List String) (d : ComponentData)
    (h : extractComponentData createProgram componentPath componentName = Extraction.returned lines (some d)) :
    ∃ program sourceFile, createProgram componentPath = Except.ok program
      ∧ program.getSourceFile componentPath = some sourceFile
      ∧ lines = []
      ∧ d = { component_name := componentName
              import_path := "@mui/material/" ++ componentName
              props := visit program.getTypeChecker componentName sourceFile []
              events := classify (visit program.getTypeChecker componentName sourceFile [])
              slots := [] } := by
  unfold extractComponentData at h
  cases hc : createProgram componentPath with
  | error message => simp [hc] at h
  | ok program =>
    cases hs : program.getSourceFile componentPath with
    | none => simp [hc, hs] at h
    | some sourceFile =>
      simp only [hc, hs, Extraction.returned.injEq, Option.some.injEq] at h
      exact ⟨program, sourceFile, rfl, hs, h.1.symm, h.2.symm⟩

/-! ## Claims on the event filter -/

/-- C1 (as stated, refuted): the prop `once` of the extracted `BoxProps`
interface is in the events list although its name is not `on` followed by an
uppercase letter. -/
theorem events_once_counterexample :
    ∃ d p, extractComponentData demoCreateProgram "node_modules/@mui/material/src/Box/Box.d.ts" "Box"
        = Extraction.returned [] (some d)
      ∧ p ∈ d.props ∧ p.name = "once" ∧ p.toEvent ∈ d.events ∧ specIsEventName p.name = false :=
  ⟨{ component_name := "Box", import_path := "@mui/material/Box",
     props := [⟨"once", "string", "once property", false, TagText.undefined⟩,
               ⟨"onClick", "() => void", "Click handler.", false, TagText.undefined⟩],
     events := [⟨"once", "string", "once property"⟩, ⟨"onClick", "() => void", "Click handler."⟩],
     slots := [] },
   ⟨"once", "string", "once property", false, TagText.undefined⟩,
   by decide, by decide, by decide, by decide, by decide⟩

/-- C1 (amended): for every result of `extractComponentData` and every prop
`p` of its props list, `p` (projected to name, type, description) is in the
events list if and only if `p.name` begins with the two characters `on`,
whatever follows them. -/
theorem events_iff_name_startsWith_on (createProgram : String → Except String Program)
    (componentPath componentName : String) (lines : List String) (d : ComponentData)
    (h : extractComponentData createProgram componentPath componentName = Extraction.returned lines (some d))
    (p : PropRecord) (hp : p ∈ d.props) :
    p.toEvent ∈ d.events ↔ ∃ rest : String, p.name = "on" ++ rest := by
  obtain ⟨program, sourceFile, -, -, -, hd⟩ :=
    extractComponentData_returned_some createProgram componentPath componentName lines d h
  subst hd
  rw [← startsWith_on_iff, classify_eq_filter_map]
  simp only [List.mem_map, List.mem_filter]
  constructor
  · rintro ⟨q, ⟨-, hq⟩, hqp⟩
    have hname : q.name = p.name := congrArg EventRecord.name hqp
    rw [← hname]
    exact hq
  · intro hs
    exact ⟨p, ⟨hp, hs⟩, rfl⟩

/-- Witness for C1 (amended): `onClick` of `BoxProps` is an event. -/
theorem events_iff_name_startsWith_on_witness :
    (⟨"onClick", "() => void", "Click handler."⟩ : EventRecord) ∈
      [(⟨"once", "string", "once property"⟩ : EventRecord), ⟨"onClick", "() => void", "Click handler."⟩] :=
  (events_iff_name_startsWith_on demoCreateProgram "node_modules/@mui/material/src/Box/Box.d.ts" "Box" []
      { component_name := "Box", import_path := "@mui/material/Box",
        props := [⟨"once", "string", "once property", false, TagText.undefined⟩,
                  ⟨"onClick", "() => void", "Click handler.", false, TagText.undefined⟩],
        events := [⟨"once", "string", "once property"⟩, ⟨"onClick", "() => void", "Click handler."⟩],
        slots := [] }
      (by decide) ⟨"onClick", "() => void", "Click handler.", false, TagText.undefined⟩
      (by decide)).mpr ⟨"Click", rfl⟩

/-- C6: in every result of `extractComponentData` the events list is a
sublist (same relative order) of the props list projected to name, type and
description, every event has a prop with the same name, type and description,
and the props list is exactly what the tree walk extracted. -/
theorem events_sublist_of_props (createProgram : String → Except String Program)
    (componentPath componentName : String) (lines : List String) (d : ComponentData)
    (h : extractComponentData createProgram componentPath componentName = Extraction.returned lines (some d)) :
    List.Sublist d.events (d.props.map PropRecord.toEvent)
    ∧ (∀ e ∈ d.events, ∃ p ∈ d.props, p.name = e.name ∧ p.type = e.type ∧ p.description = e.description)
    ∧ (∃ program sourceFile, createProgram componentPath = Except.ok program
        ∧ program.getSourceFile componentPath = some sourceFile
        ∧ d.props = visit program.getTypeChecker componentName sourceFile []) := by
  obtain ⟨program, sourceFile, hc, hs, -, hd⟩ :=
    extractComponentData_returned_some createProgram componentPath componentName lines d h
  subst hd
  refine ⟨?_, ?_, program, sourceFile, hc, hs, rfl⟩
  · rw [classify_eq_filter_map]
    exact (List.filter_sublist _).map _
  · intro e he
    rw [classify_eq_filter_map] at he
    simp only [List.mem_map, List.mem_filter] at he
    obtain ⟨q, ⟨hq, -⟩, hqe⟩ := he
    subst hqe
    exact ⟨q, hq, rfl, rfl, rfl⟩

/-- Witness for C6: the events of `Box` form a sublist of its projected props. -/
theorem events_sublist_of_props_witness :
    List.Sublist
      [(⟨"once", "string", "once property"⟩ : EventRecord), ⟨"onClick", "() => void", "Click handler."⟩]
      (([⟨"once", "string", "once property", false, TagText.undefined⟩,
         ⟨"onClick", "() => void", "Click handler.", false, TagText.undefined⟩] : List PropRecord).map
        PropRecord.toEvent) :=
  (events_sublist_of_props demoCreateProgram "node_modules/@mui/material/src/Box/Box.d.ts" "Box" []
      { component_name := "Box", import_path := "@mui/material/Box",
        props := [⟨"once", "string", "once property", false, TagText.undefined⟩,
                  ⟨"onClick", "() => void", "Click handler.", false, TagText.undefined⟩],
        events := [⟨"once", "string", "once property"⟩, ⟨"onClick", "() => void", "Click handler."⟩],
        slots := [] }
      (by decide)).1

/-- C7: the event filter is idempotent: applied to its own output
`classify P` (the filter on the name, then the projection to name, type and
description), it returns `classify P`. -/
theorem classify_idempotent (props : List PropRecord) :
    classifyEvents (classify props) = classify props := by
  unfold classifyEvents classify classifyWith
  have hall : ∀ e ∈ (props.filter (fun prop => startsWith prop.name "on")).map
      (fun prop => ({ name := prop.name, type := prop.type, description := prop.description } : EventRecord)),
      startsWith e.name "on" = true := by
    intro e he
    simp only [List.mem_map, List.mem_filter] at he
    obtain ⟨q, ⟨-, hq⟩, hqe⟩ := he
    subst hqe
    exact hq
  rw [List.filter_eq_self.mpr hall]
  exact List.map_id _

/-! ## Lemmas on the tree walk and the aggregation loop -/

mutual
theorem visit_of_no_match (checker : Checker) (componentName : String) :
    ∀ (node : Node) (props : List PropRecord),
      componentName ++ "Props" ∉ interfaceNames node →
      componentName ++ "PropsWithRef" ∉ interfaceNames node →
      visit checker componentName node props = props
  | Node.interfaceDeclaration name children, props, h1, h2 => by
    simp only [interfaceNames, List.mem_cons, not_or] at h1 h2
    have hne : ¬ (name.text = componentName ++ "Props" ∨ name.text = componentName ++ "PropsWithRef") := by
      rintro (h | h)
      · exact h1.1 h.symm
      · exact h2.1 h.symm
    simp only [visit, if_neg hne]
    exact visitChildren_of_no_match checker componentName children props h1.2 h2.2
  | Node.other children, props, h1, h2 => by
    simp only [interfaceNames] at h1 h2
    simp only [visit]
    exact visitChildren_of_no_match checker componentName children props h1 h2
theorem visitChildren_of_no_match (checker : Checker) (componentName : String) :
    ∀ (children : List Node) (props : List PropRecord),
      componentName ++ "Props" ∉ interfaceNamesOfList children →
      componentName ++ "PropsWithRef" ∉ interfaceNamesOfList children →
      visitChildren checker componentName children props = props
  | [], props, _, _ => by simp only [visitChildren]
  | child :: rest, props, h1, h2 => by
    simp only [interfaceNamesOfList, List.mem_append, not_or] at h1 h2
    simp only [visitChildren]
    rw [visit_of_no_match checker componentName child props h1.1 h2.1]
    exact visitChildren_of_no_match checker componentName rest props h1.2 h2.2
end

theorem mem_keys_setKey (obj : List (String × ComponentData)) (key : String) (value : ComponentData)
    (n : String) :
    n ∈ (setKey obj key value).map Prod.fst ↔ n ∈ obj.map Prod.fst ∨ n = key := by
  induction obj with
  | nil => simp [setKey]
  | cons kv rest ih =>
    obtain ⟨k, v⟩ := kv
    by_cases hk : k = key
    · subst hk
      simp only [setKey, ↓reduceIte, List.map_cons, List.mem_cons]
      tauto
    · simp only [setKey, if_neg hk, List.map_cons, List.mem_cons, ih]
      tauto

theorem mem_setKey (obj : List (String × ComponentData)) (key : String) (value : ComponentData)
    (n : String) (d : ComponentData) :
    (n, d) ∈ setKey obj key value → (n, d) ∈ obj ∨ (n = key ∧ d = value) := by
  induction obj with
  | nil =>
    intro h
    simp only [setKey, List.mem_singleton, Prod.mk.injEq] at h
    exact Or.inr h
  | cons kv rest ih =>
    obtain ⟨k, v⟩ := kv
    intro h
    by_cases hk : k = key
    · subst hk
      simp only [setKey, ↓reduceIte, List.mem_cons, Prod.mk.injEq] at h
      rcases h with h | h
      · exact Or.inr h
      · exact Or.inl (List.mem_cons_of_mem _ h)
    · simp only [setKey, if_neg hk, List.mem_cons] at h
      rcases h with h | h
      · exact Or.inl (h ▸ List.mem_cons_self _ _)
      · rcases ih h with h | h
        · exact Or.inl (List.mem_cons_of_mem _ h)
        · exact Or.inr h

theorem extractComponentData_cases (createProgram : String → Except String Program)
    (componentPath componentName : String) :
    (∃ message, createProgram componentPath = Except.error message
        ∧ extractComponentData createProgram componentPath componentName = Extraction.threw message)
    ∨ (∃ program, createProgram componentPath = Except.ok program
        ∧ program.getSourceFile componentPath = none
        ∧ extractComponentData createProgram componentPath componentName
            = Extraction.returned ["Could not load " ++ componentPath] none)
    ∨ (∃ program sourceFile data, createProgram componentPath = Except.ok program
        ∧ program.getSourceFile componentPath = some sourceFile
        ∧ extractComponentData createProgram componentPath componentName
            = Extraction.returned [] (some data)) := by
  unfold extractComponentData
  cases hc : createProgram componentPath with
  | error message => exact Or.inl ⟨message, rfl, rfl⟩
  | ok program =>
    cases hs : program.getSourceFile componentPath with
    | none => exact Or.inr (Or.inl ⟨program, rfl, hs, by simp only [hs]⟩)
    | some sourceFile =>
      exact Or.inr (Or.inr ⟨program, sourceFile,
        { component_name := componentName
          import_path := "@mui/material/" ++ componentName
          props := visit program.getTypeChecker componentName sourceFile []
          events := classify (visit program.getTypeChecker componentName sourceFile [])
          slots := [] }, rfl, hs, by simp only [hs]⟩)

theorem processComponent_eq (w : World) (st : Run) (component : Component) :
    processComponent w st component =
      { allComponentData :=
          match extractionResult w.createProgram component with
          | some data => setKey st.allComponentData component.name data
          | none => st.allComponentData
        componentIndex := st.componentIndex ++ (indexedEntry w component).toList
        errors := st.errors ++ expectedErrorLines w component
        files := st.files ++ (writtenFile w component).toList } := by
  rcases extractComponentData_cases w.createProgram component.path component.name with
    ⟨message, hc, hx⟩ | ⟨program, hc, hs, hx⟩ | ⟨program, sourceFile, data, hc, hs, hx⟩
  · simp [processComponent, indexedEntry, writtenFile, expectedErrorLines, writeFailure, extractionResult,
      hx, hc]
  · simp [processComponent, indexedEntry, writtenFile, expectedErrorLines, writeFailure, extractionResult,
      hx, hc, hs]
  · cases hw : w.writeFileSync (outputPath w component) (FileContent.component data) with
    | error message =>
      simp [processComponent, indexedEntry, writtenFile, expectedErrorLines, writeFailure,
        extractionResult, hx, hc, hs, hw]
    | ok u =>
      simp [processComponent, indexedEntry, writtenFile, expectedErrorLines, writeFailure,
        extractionResult, hx, hc, hs, hw]

theorem foldl_componentIndex (w : World) (components : List Component) (st : Run) :
    (components.foldl (processComponent w) st).componentIndex
      = st.componentIndex ++ components.filterMap (indexedEntry w) := by
  induction components generalizing st with
  | nil => simp
  | cons c rest ih =>
    rw [List.foldl_cons, ih, processComponent_eq, List.filterMap_cons]
    cases indexedEntry w c <;> simp

theorem foldl_errors (w : World) (components : List Component) (st : Run) :
    (components.foldl (processComponent w) st).errors
      = st.errors ++ components.flatMap (expectedErrorLines w) := by
  induction components generalizing st with
  | nil => simp [List.flatMap]
  | cons c rest ih =>
    rw [List.foldl_cons, ih, processComponent_eq]
    simp [List.flatMap]

theorem foldl_keys (w : World) (components : List Component) (st : Run) (n : String) :
    n ∈ (components.foldl (processComponent w) st).allComponentData.map Prod.fst
      ↔ n ∈ st.allComponentData.map Prod.fst
        ∨ ∃ c ∈ components, c.name = n ∧ (extractionResult w.createProgram c).isSome = true := by
  induction components generalizing st with
  | nil => simp
  | cons c rest ih =>
    rw [List.foldl_cons, ih, processComponent_eq]
    cases hres : extractionResult w.createProgram c with
    | none =>
      simp only [List.mem_cons, exists_eq_or_imp, hres, Option.isSome_none, Bool.false_eq_true, and_false,
        false_or]
    | some data =>
      simp only [mem_keys_setKey, List.mem_cons, exists_eq_or_imp, hres, Option.isSome_some, and_true]
      constructor
      · rintro ((h | h) | h)
        · exact Or.inl h
        · exact Or.inr (Or.inl h.symm)
        · exact Or.inr (Or.inr h)
      · rintro (h | h | h)
        · exact Or.inl (Or.inl h)
        · exact Or.inl (Or.inr h.symm)
        · exact Or.inr h

theorem foldl_values (w : World) (components : List Component) (st : Run) (n : String)
    (d : ComponentData) :
    (n, d) ∈ (components.foldl (processComponent w) st).allComponentData →
      (n, d) ∈ st.allComponentData
        ∨ ∃ c ∈ components, c.name = n ∧ extractionResult w.createProgram c = some d := by
  induction components generalizing st with
  | nil =>
    intro h
    exact Or.inl h
  | cons c rest ih =>
    intro h
    rw [List.foldl_cons] at h
    rcases ih _ h with h1 | ⟨c1, hc1, hname, hres⟩
    · rw [processComponent_eq] at h1
      cases hres : extractionResult w.createProgram c with
      | none =>
        simp only [hres] at h1
        exact Or.inl h1
      | some data =>
        simp only [hres] at h1
        rcases mem_setKey _ _ _ _ _ h1 with h2 | ⟨h2, h3⟩
        · exact Or.inl h2
        · exact Or.inr ⟨c, List.mem_cons_self _ _, h2.symm, h3 ▸ hres⟩
    · exact Or.inr ⟨c1, List.mem_cons_of_mem _ hc1, hname, hres⟩

theorem indexedEntry_eq_some (w : World) (c : Component) (e : IndexEntry) :
    indexedEntry w c = some e ↔
      ∃ data, extractionResult w.createProgram c = some data
        ∧ w.writeFileSync (outputPath w c) (FileContent.component data) = Except.ok ()
        ∧ e = indexEntry w c data := by
  unfold indexedEntry
  cases hres : extractionResult w.createProgram c with
  | none => simp
  | some data =>
    cases hw : w.writeFileSync (outputPath w c) (FileContent.component data) with
    | error message => simp [hw]
    | ok u =>
      simp only [hw, Option.some.injEq, exists_eq_left', true_and]
      exact eq_comm

theorem index_names_eq_filter (w : World) (components : List Component) :
    (components.filterMap (indexedEntry w)).map IndexEntry.component_name
      = (components.filter (fun c => (indexedEntry w c).isSome)).map Component.name := by
  induction components with
  | nil => rfl
  | cons c rest ih =>
    rw [List.filterMap_cons, List.filter_cons]
    cases hres : indexedEntry w c with
    | none => simpa using ih
    | some e =>
      obtain ⟨data, -, -, he⟩ := (indexedEntry_eq_some w c e).mp hres
      subst he
      simpa [indexEntry] using ih

theorem extractionResult_loadable (createProgram : String → Except String Program) (c : Component)
    (d : ComponentData) (h : extractionResult createProgram c = some d) :
    loadable createProgram c = true := by
  unfold extractionResult extractComponentData at h
  unfold loadable
  cases hc : createProgram c.path with
  | error message => simp [hc] at h
  | ok program =>
    cases hs : program.getSourceFile c.path with
    | none => simp [hc, hs] at h
    | some sourceFile => simp [hs]

theorem loadable_extractionResult (createProgram : String → Except String Program) (c : Component)
    (h : loadable createProgram c = true) :
    (extractionResult createProgram c).isSome = true := by
  unfold loadable at h
  unfold extractionResult extractComponentData
  cases hc : createProgram c.path with
  | error message => simp [hc] at h
  | ok program =>
    cases hs : program.getSourceFile c.path with
    | none => simp [hc, hs] at h
    | some sourceFile => simp [hs]

theorem extractAllComponents_completed_inv (w : World) (r : Completed)
    (h : extractAllComponents w = Outcome.completed r) :
    ∃ discovered, getAllMUIComponents w = Except.ok discovered
      ∧ r.allComponentData = (runLoop w discovered).allComponentData
      ∧ r.indexData = indexDataOf w (runLoop w discovered)
      ∧ r.errors = (runLoop w discovered).errors
      ∧ r.returned = Returned.undefined := by
  unfold extractAllComponents at h
  split at h
  · simp at h
  · split at h
    · simp at h
    · split at h
      · simp at h
      · rename_i discovered hdisc
        split at h
        · simp at h
        · unfold finishRun at h
          simp only at h
          split at h
          · simp at h
          · split at h
            · simp at h
            · simp only [Outcome.completed.injEq] at h
              subst h
              exact ⟨discovered, hdisc, rfl, rfl, rfl, rfl⟩

theorem indexedEntry_none_of_result_none (w : World) (c : Component)
    (h : extractionResult w.createProgram c = none) :
    indexedEntry w c = none ∧ writtenFile w c = none ∧ writeFailure w c = none := by
  simp [indexedEntry, writtenFile, writeFailure, h]

theorem extractionResult_none_of_not_loadable (createProgram : String → Except String Program)
    (c : Component) (h : loadable createProgram c = false) :
    extractionResult createProgram c = none := by
  cases hres : extractionResult createProgram c with
  | none => rfl
  | some d =>
    have := extractionResult_loadable createProgram c d hres
    rw [h] at this
    exact absurd this (by decide)

/-! ## Claims on the driver and the aggregation -/

/-- C8 (as stated, refuted): `Widget` loads and has no interface named
`WidgetProps` or `WidgetPropsWithRef`, but in a run where writing its
component file throws it gets no index entry and an error line is written for
it. -/
theorem no_match_write_failure_counterexample :
    ∃ r, extractAllComponents demoWorldWriteFails = Outcome.completed r
      ∧ getAllMUIComponents demoWorldWriteFails = Except.ok demoComponents
      ∧ (⟨"Widget", "node_modules/@mui/material/src/Widget/Widget.d.ts"⟩ : Component) ∈ demoComponents
      ∧ demoProgram.getSourceFile "node_modules/@mui/material/src/Widget/Widget.d.ts" = some demoWidgetFile
      ∧ "WidgetProps" ∉ interfaceNames demoWidgetFile
      ∧ "WidgetPropsWithRef" ∉ interfaceNames demoWidgetFile
      ∧ (∀ e ∈ r.indexData.components, e.component_name ≠ "Widget")
      ∧ "Error extracting Widget: ENOSPC: no space left on device, write" ∈ r.errors :=
  ⟨_, rfl, rfl, by decide, rfl, by decide, by decide, by decide, by decide⟩

/-- C8 (amended): when the module of a component loads and none of its
interface declarations is named `<C>Props` or `<C>PropsWithRef`,
`extractComponentData` returns a non-null result with `component_name = C` and
empty `props`, `events` and `slots`; and provided the write of the component's
file does not throw, the loop iteration for it stores the data, pushes an
index entry with `props_count = 0` and `events_count = 0` and writes no error
line, and that entry is in the index built by the loop over any components
that include it. -/
theorem no_matching_interface_yields_empty (w : World)
    (componentPath componentName : String) (program : Program) (sourceFile : Node)
    (hc : w.createProgram componentPath = Except.ok program)
    (hs : program.getSourceFile componentPath = some sourceFile)
    (h1 : componentName ++ "Props" ∉ interfaceNames sourceFile)
    (h2 : componentName ++ "PropsWithRef" ∉ interfaceNames sourceFile) :
    extractComponentData w.createProgram componentPath componentName
        = Extraction.returned [] (some
            { component_name := componentName, import_path := "@mui/material/" ++ componentName,
              props := [], events := [], slots := [] })
    ∧ (w.writeFileSync (outputPath w ⟨componentName, componentPath⟩)
          (FileContent.component
            { component_name := componentName, import_path := "@mui/material/" ++ componentName,
              props := [], events := [], slots := [] }) = Except.ok () →
        (∀ st : Run, processComponent w st ⟨componentName, componentPath⟩
          = { allComponentData := setKey st.allComponentData componentName
                { component_name := componentName, import_path := "@mui/material/" ++ componentName,
                  props := [], events := [], slots := [] }
              componentIndex := st.componentIndex ++
                [{ file := w.toLowerCase componentName ++ "-mui-v7-auto.json", component_name := componentName,
                   import_path := "@mui/material/" ++ componentName, props_count := 0, events_count := 0,
                   has_slots := false }]
              errors := st.errors
              files := st.files ++
                [(w.pathJoin OUTPUT_DIR (w.toLowerCase componentName ++ "-mui-v7-auto.json"),
                  FileContent.component
                    { component_name := componentName, import_path := "@mui/material/" ++ componentName,
                      props := [], events := [], slots := [] })] })
        ∧ (∀ components : List Component, (⟨componentName, componentPath⟩ : Component) ∈ components →
            ({ file := w.toLowerCase componentName ++ "-mui-v7-auto.json", component_name := componentName,
               import_path := "@mui/material/" ++ componentName, props_count := 0, events_count := 0,
               has_slots := false } : IndexEntry) ∈ (runLoop w components).componentIndex)) := by
  have hdata : extractComponentData w.createProgram componentPath componentName
      = Extraction.returned [] (some
          { component_name := componentName, import_path := "@mui/material/" ++ componentName,
            props := [], events := [], slots := [] }) := by
    unfold extractComponentData
    simp only [hc, hs, visit_of_no_match program.getTypeChecker componentName sourceFile [] h1 h2]
    rfl
  refine ⟨hdata, ?_⟩
  intro hw
  have hres : extractionResult w.createProgram ⟨componentName, componentPath⟩
      = some { component_name := componentName, import_path := "@mui/material/" ++ componentName,
               props := [], events := [], slots := [] } := by
    unfold extractionResult
    simp only [hdata]
  have hidx : indexedEntry w ⟨componentName, componentPath⟩
      = some { file := w.toLowerCase componentName ++ "-mui-v7-auto.json", component_name := componentName,
               import_path := "@mui/material/" ++ componentName, props_count := 0, events_count := 0,
               has_slots := false } := by
    rw [indexedEntry_eq_some]
    exact ⟨_, hres, hw, rfl⟩
  constructor
  · intro st
    unfold processComponent
    simp only [hdata, hw, List.append_nil]
    rfl
  · intro components hmem
    unfold runLoop
    rw [foldl_componentIndex, List.nil_append, List.mem_filterMap]
    exact ⟨⟨componentName, componentPath⟩, hmem, hidx⟩

/-- Witness for C8 (amended): `Widget`, whose file declares only
`WidgetOwnProps`, in the run where every write succeeds. -/
theorem no_matching_interface_yields_empty_witness :
    extractComponentData demoWorld.createProgram "node_modules/@mui/material/src/Widget/Widget.d.ts" "Widget"
      = Extraction.returned [] (some
          { component_name := "Widget", import_path := "@mui/material/Widget",
            props := [], events := [], slots := [] })
    ∧ ({ file := "widget-mui-v7-auto.json", component_name := "Widget",
         import_path := "@mui/material/Widget", props_count := 0, events_count := 0,
         has_slots := false } : IndexEntry) ∈ (runLoop demoWorld demoComponents).componentIndex :=
  ⟨(no_matching_interface_yields_empty demoWorld "node_modules/@mui/material/src/Widget/Widget.d.ts"
      "Widget" demoProgram demoWidgetFile rfl rfl (by decide) (by decide)).1,
   ((no_matching_interface_yields_empty demoWorld "node_modules/@mui/material/src/Widget/Widget.d.ts"
      "Widget" demoProgram demoWidgetFile rfl rfl (by decide) (by decide)).2 rfl).2 demoComponents
      (by decide)⟩

/-- C9 (as stated, refuted): in a run where writing the component file of
`Widget` throws, the extraction of `Widget` returned a result, yet the index
lists `Box` and `Sloppy` only, not the discovery sequence restricted to the
components whose extraction succeeded. -/
theorem index_write_failure_counterexample :
    ∃ r, extractAllComponents demoWorldWriteFails = Outcome.completed r
      ∧ getAllMUIComponents demoWorldWriteFails = Except.ok demoComponents
      ∧ (demoComponents.filter
            (fun c => (extractionResult demoWorldWriteFails.createProgram c).isSome)).map Component.name
          = ["Box", "Sloppy", "Widget"]
      ∧ r.indexData.components.map IndexEntry.component_name = ["Box", "Sloppy"]
      ∧ r.allComponentData.map Prod.fst = ["Box", "Sloppy", "Widget"] :=
  ⟨_, rfl, rfl, by decide, by decide, by decide⟩

/-- C9 (amended): the `component_name` sequence of the index built by the loop
is the discovery sequence restricted, in discovery order, to the components
whose extraction returned a result (did not throw, did not return null) and
whose component file was written without an exception; the keys of
`allComponentData` are exactly the names of the components whose extraction
returned a result, and every stored value is the result extracted for a
discovered component of that name; a completed run reports this index and
this data for the components it discovered. -/
theorem index_follows_discovery_order (w : World) (components : List Component) :
    (runLoop w components).componentIndex.map IndexEntry.component_name
        = (components.filter (fun c => (indexedEntry w c).isSome)).map Component.name
    ∧ (∀ c, (indexedEntry w c).isSome = true ↔
        ∃ data, extractionResult w.createProgram c = some data
          ∧ w.writeFileSync (outputPath w c) (FileContent.component data) = Except.ok ())
    ∧ (∀ n, n ∈ (runLoop w components).allComponentData.map Prod.fst ↔
        ∃ c ∈ components, c.name = n ∧ (extractionResult w.createProgram c).isSome = true)
    ∧ (∀ n d, (n, d) ∈ (runLoop w components).allComponentData →
        ∃ c ∈ components, c.name = n ∧ extractionResult w.createProgram c = some d)
    ∧ (∀ r, extractAllComponents w = Outcome.completed r →
        ∃ discovered, getAllMUIComponents w = Except.ok discovered
          ∧ r.indexData.components = (runLoop w discovered).componentIndex
          ∧ r.allComponentData = (runLoop w discovered).allComponentData) := by
  refine ⟨?_, ?_, ?_, ?_, ?_⟩
  · unfold runLoop
    rw [foldl_componentIndex, List.nil_append, index_names_eq_filter]
  · intro c
    rw [Option.isSome_iff_exists]
    constructor
    · rintro ⟨e, he⟩
      obtain ⟨data, hres, hw, -⟩ := (indexedEntry_eq_some w c e).mp he
      exact ⟨data, hres, hw⟩
    · rintro ⟨data, hres, hw⟩
      exact ⟨_, (indexedEntry_eq_some w c _).mpr ⟨data, hres, hw, rfl⟩⟩
  · intro n
    unfold runLoop
    rw [foldl_keys]
    simp
  · intro n d hmem
    unfold runLoop at hmem
    rcases foldl_values _ _ _ _ _ hmem with h0 | h1
    · simp at h0
    · exact h1
  · intro r hr
    obtain ⟨discovered, hdisc, hall, hidx, -, -⟩ := extractAllComponents_completed_inv w r hr
    exact ⟨discovered, hdisc, by rw [hidx]; rfl, hall⟩

/-- Witness for C9 (amended): the run where every write succeeds completes,
and of `Box`, `Broken`, `Gone`, `Sloppy`, `Widget` (in this order) its index
lists `Box`, `Sloppy` and `Widget`. -/
theorem index_follows_discovery_order_witness :
    ∃ r, extractAllComponents demoWorld = Outcome.completed r
      ∧ r.indexData.components.map IndexEntry.component_name = ["Box", "Sloppy", "Widget"] := by
  refine ⟨_, rfl, ?_⟩
  obtain ⟨discovered, hdisc, hidx, -⟩ :=
    (index_follows_discovery_order demoWorld demoComponents).2.2.2.2 _ rfl
  have hd : discovered = demoComponents := by
    have h0 : getAllMUIComponents demoWorld = Except.ok demoComponents := rfl
    rw [h0] at hdisc
    exact (Except.ok.inj hdisc).symm
  rw [hidx, hd, (index_follows_discovery_order demoWorld demoComponents).1]
  decide

/-- C10 (as stated, refuted): in the run over `Box`, `Broken`, `Gone`,
`Sloppy`, `Widget`, the module of `Broken` cannot be loaded, but what is handed
back to the caller is `undefined`, which holds no failure entry: the failure
only went to the console.  And the module of `Sloppy` fails to parse (it has a
syntax error), but `Sloppy` gets a result and an index entry and no error line
is written for it. -/
theorem failure_list_counterexample :
    ∃ r, extractAllComponents demoWorld = Outcome.completed r
      ∧ getAllMUIComponents demoWorld = Except.ok demoComponents
      ∧ loadable demoWorld.createProgram ⟨"Broken", "node_modules/@mui/material/src/Broken/Broken.d.ts"⟩
          = false
      ∧ r.returned = Returned.undefined
      ∧ r.returned.failureEntries = []
      ∧ hasSyntaxErrors demoWorld.createProgram ⟨"Sloppy", "node_modules/@mui/material/src/Sloppy/Sloppy.tsx"⟩
          = true
      ∧ "Sloppy" ∈ r.allComponentData.map Prod.fst
      ∧ "Sloppy" ∈ r.indexData.components.map IndexEntry.component_name
      ∧ r.errors = ["Error extracting Broken: Debug Failure.",
                    "Could not load node_modules/@mui/material/src/Gone/index.d.ts"] :=
  ⟨_, rfl, rfl, by decide, by decide, by decide, by decide, by decide, by decide, by decide⟩

/-- C10 (amended): no failure list is returned: a completed run hands
`undefined` to its caller, and failures are only written with `console.error`.
The lines written by the loop are, in discovery order, exactly one line per
component whose module cannot be loaded (the `catch` line with the component
name and the exception message when the compiler threw, the `Could not load`
line with the path when the compiler has no source file), for which nothing is
stored and nothing indexed; one `catch` line per component whose module
loads but whose component file could not be written; and no line for any
other component whose module loads, whether or not an interface matches.  A
module with syntax errors that the compiler loads is not a failure: it gets a
result.  Every stored result and every index entry belongs to a discovered
component whose module loads. -/
theorem load_failures_logged_not_returned (w : World) (components : List Component) :
    (runLoop w components).errors = components.flatMap (expectedErrorLines w)
    ∧ (∀ c, loadable w.createProgram c = false →
        ∃ line, expectedErrorLines w c = [line]
          ∧ ∀ st : Run, processComponent w st c = { st with errors := st.errors ++ [line] })
    ∧ (∀ c message, w.createProgram c.path = Except.error message →
        expectedErrorLines w c = ["Error extracting " ++ c.name ++ ": " ++ message])
    ∧ (∀ c program, w.createProgram c.path = Except.ok program → program.getSourceFile c.path = none →
        expectedErrorLines w c = ["Could not load " ++ c.path])
    ∧ (∀ c, loadable w.createProgram c = true →
        ∃ data, extractionResult w.createProgram c = some data
          ∧ (w.writeFileSync (outputPath w c) (FileContent.component data) = Except.ok () →
              expectedErrorLines w c = []
              ∧ ∀ st : Run, (processComponent w st c).errors = st.errors)
          ∧ (∀ message,
              w.writeFileSync (outputPath w c) (FileContent.component data) = Except.error message →
              expectedErrorLines w c = ["Error extracting " ++ c.name ++ ": " ++ message]))
    ∧ (∀ c, hasSyntaxErrors w.createProgram c = true → loadable w.createProgram c = true →
        (extractionResult w.createProgram c).isSome = true)
    ∧ (∀ n d, (n, d) ∈ (runLoop w components).allComponentData →
        ∃ c ∈ components, c.name = n ∧ loadable w.createProgram c = true)
    ∧ (∀ e ∈ (runLoop w components).componentIndex,
        ∃ c ∈ components, c.name = e.component_name ∧ loadable w.createProgram c = true)
    ∧ (∀ r, extractAllComponents w = Outcome.completed r →
        r.returned = Returned.undefined
        ∧ r.returned.failureEntries = []
        ∧ ∃ discovered, getAllMUIComponents w = Except.ok discovered
            ∧ r.errors = (runLoop w discovered).errors) := by
  refine ⟨?_, ?_, ?_, ?_, ?_, ?_, ?_, ?_, ?_⟩
  · unfold runLoop
    rw [foldl_errors, List.nil_append]
  · intro c hload
    have hnone := extractionResult_none_of_not_loadable w.createProgram c hload
    obtain ⟨hidx, hfile, -⟩ := indexedEntry_none_of_result_none w c hnone
    have hline : ∃ line, expectedErrorLines w c = [line] := by
      unfold loadable at hload
      unfold expectedErrorLines
      cases hc : w.createProgram c.path with
      | error message => exact ⟨_, rfl⟩
      | ok program =>
        cases hs : program.getSourceFile c.path with
        | none => exact ⟨"Could not load " ++ c.path, by simp only [hs]⟩
        | some sourceFile => simp [hc, hs] at hload
    obtain ⟨line, hline⟩ := hline
    refine ⟨line, hline, ?_⟩
    intro st
    rw [processComponent_eq, hnone, hline, hidx, hfile]
    simp
  · intro c message hc
    simp [expectedErrorLines, hc, catchLine]
  · intro c program hc hs
    simp [expectedErrorLines, hc, hs]
  · intro c hload
    have hsome := loadable_extractionResult w.createProgram c hload
    obtain ⟨data, hres⟩ := Option.isSome_iff_exists.mp hsome
    have hshape : ∀ fail : Option String, writeFailure w c = fail →
        expectedErrorLines w c = match fail with
          | some message => [catchLine c message]
          | none => [] := by
      intro fail hfail
      unfold loadable at hload
      unfold expectedErrorLines
      cases hc : w.createProgram c.path with
      | error message => simp [hc] at hload
      | ok program =>
        cases hs : program.getSourceFile c.path with
        | none => simp [hc, hs] at hload
        | some sourceFile => simp only [hs, hfail]
    refine ⟨data, hres, ?_, ?_⟩
    · intro hw
      have hfail : writeFailure w c = none := by simp [writeFailure, hres, hw]
      have hlines : expectedErrorLines w c = [] := hshape none hfail
      refine ⟨hlines, ?_⟩
      intro st
      rw [processComponent_eq, hlines]
      simp
    · intro message hw
      have hfail : writeFailure w c = some message := by simp [writeFailure, hres, hw]
      exact hshape (some message) hfail
  · intro c _ hload
    exact loadable_extractionResult w.createProgram c hload
  · intro n d hmem
    unfold runLoop at hmem
    rcases foldl_values _ _ _ _ _ hmem with h0 | ⟨c, hc, hname, hres⟩
    · simp at h0
    · exact ⟨c, hc, hname, extractionResult_loadable _ _ _ hres⟩
  · intro e hmem
    unfold runLoop at hmem
    rw [foldl_componentIndex, List.nil_append, List.mem_filterMap] at hmem
    obtain ⟨c, hc, hce⟩ := hmem
    obtain ⟨data, hres, -, he⟩ := (indexedEntry_eq_some w c e).mp hce
    subst he
    exact ⟨c, hc, rfl, extractionResult_loadable _ _ _ hres⟩
  · intro r hr
    obtain ⟨discovered, hdisc, -, -, herr, hret⟩ := extractAllComponents_completed_inv w r hr
    refine ⟨hret, ?_, discovered, hdisc, herr⟩
    rw [hret]
    rfl

/-- Witness for C10 (amended): the run over `Box`, `Broken`, `Gone`, `Sloppy`,
`Widget` completes with `undefined`; it wrote one line for `Broken` and one
for `Gone`, and none for `Sloppy`, which has a syntax error, nor for `Widget`,
which has no matching interface. -/
theorem load_failures_logged_not_returned_witness :
    ∃ r, extractAllComponents demoWorld = Outcome.completed r
      ∧ r.returned = Returned.undefined
      ∧ (runLoop demoWorld demoComponents).errors
          = ["Error extracting Broken: Debug Failure.",
             "Could not load node_modules/@mui/material/src/Gone/index.d.ts"] :=
  ⟨_, rfl,
   ((load_failures_logged_not_returned demoWorld demoComponents).2.2.2.2.2.2.2.2 _ rfl).1,
   (load_failures_logged_not_returned demoWorld demoComponents).1.trans (by decide)⟩

end MuiExtract
